import Mathlib

/-!
Shallow embedding of the rollout-collection and advantage-computation engine
of the ZeroGUI repository, covering
`src/openrlhf/trainer/ppo_utils/experience_maker.py` and
`src/openrlhf/trainer/ray/vllm_engine.py`.

Tensors are modelled over `ℚ` (the code computes with floating-point tensors;
the recurrences under verification are exact arithmetic).  A batched 2-D
tensor of shape (B, T) is a `List (List ℚ)` of B rows; concatenation along
the batch dimension (`torch.cat(..., dim=0)`) is list append.
-/

/-- Elementwise product of one mask row with one data row: the
    `action_mask * values` / `action_mask * rewards` masking step of
    `get_advantages_and_returns` and `get_cumulative_returns`, restricted to
    a single batch row. -/
def maskRow (mask row : List ℚ) : List ℚ := List.zipWith (· * ·) mask row

/-- Apply the optional 2-D `action_mask` elementwise over the batch, as the
    source does with `values = action_mask * values` before its backward
    loops; `none` models `action_mask is None`. -/
def applyMask (action_mask : Option (List (List ℚ))) (x : List (List ℚ)) :
    List (List ℚ) :=
  match action_mask with
  | some m => List.zipWith maskRow m x
  | none => x

/-- The backward loop of `NaiveExperienceMaker.get_advantages_and_returns`
    on one batch row, written as structural recursion on the suffix.  The
    Python loop runs `t` from the last timestep down to 0 carrying
    `lastgaelam` (initialised to 0), with
    `nextvalues = values[t + 1]` (0 at the last timestep),
    `delta = rewards[t] + gamma * nextvalues - values[t]`,
    `lastgaelam = delta + gamma * lambd * lastgaelam`,
    and stacks the results in forward order; the head of the recursive
    result here is exactly the `lastgaelam` produced by timestep `t + 1`,
    and the head of the value suffix is `nextvalues`. -/
def gaeAdvRow (gamma lambd : ℚ) : List ℚ → List ℚ → List ℚ
  | v :: vs, r :: rs =>
    let rest := gaeAdvRow gamma lambd vs rs
    (r + gamma * vs.headD 0 - v + gamma * lambd * rest.headD 0) :: rest
  | _, _ => []

/-- `NaiveExperienceMaker.get_advantages_and_returns` (batched tensor path):
    mask values and rewards, run the backward GAE loop per row, and return
    `(advantages, advantages + values)` where the addition is elementwise on
    the masked values tensor. -/
def get_advantages_and_returns (gamma lambd : ℚ)
    (values rewards : List (List ℚ)) (action_mask : Option (List (List ℚ))) :
    List (List ℚ) × List (List ℚ) :=
  let v := applyMask action_mask values
  let r := applyMask action_mask rewards
  let advantages := List.zipWith (gaeAdvRow gamma lambd) v r
  (advantages, List.zipWith (List.zipWith (· + ·)) advantages v)

/-- The backward loop of `NaiveExperienceMaker.get_cumulative_returns` on one
    batch row: `cumulative_return = rewards[t] + gamma * cumulative_return`
    from the last timestep down to 0 (accumulator initialised to 0), results
    in forward order; the head of the recursive result is the accumulator
    value produced by timestep `t + 1`. -/
def cumReturnRow (gamma : ℚ) : List ℚ → List ℚ
  | [] => []
  | r :: rs =>
    let rest := cumReturnRow gamma rs
    (r + gamma * rest.headD 0) :: rest

/-- `NaiveExperienceMaker.get_cumulative_returns` (batched tensor path):
    mask rewards, then run the discounted backward accumulation per row. -/
def get_cumulative_returns (gamma : ℚ)
    (rewards : List (List ℚ)) (action_mask : Option (List (List ℚ))) :
    List (List ℚ) :=
  (applyMask action_mask rewards).map (cumReturnRow gamma)

/- Basic list lemmas used by the recurrence proofs. -/

lemma headD_eq_getD {α : Type} (l : List α) (d : α) : l.headD d = l.getD 0 d := by
  cases l <;> rfl

lemma getD_zipWith {α β γ : Type} (f : α → β → γ) (d1 : α) (d2 : β) (d3 : γ)
    (a : List α) (b : List β) (t : ℕ) (ht1 : t < a.length) (ht2 : t < b.length) :
    (List.zipWith f a b).getD t d3 = f (a.getD t d1) (b.getD t d2) := by
  induction a generalizing b t with
  | nil => simp at ht1
  | cons x xs ih =>
    cases b with
    | nil => simp at ht2
    | cons y ys =>
      cases t with
      | zero => rfl
      | succ t =>
        simp only [List.zipWith_cons_cons, List.getD_cons_succ]
        exact ih ys t (by simpa using ht1) (by simpa using ht2)

lemma gaeAdvRow_length (gamma lambd : ℚ) (v r : List ℚ) :
    (gaeAdvRow gamma lambd v r).length = min v.length r.length := by
  induction v generalizing r with
  | nil => cases r <;> simp [gaeAdvRow]
  | cons x xs ih =>
    cases r with
    | nil => simp [gaeAdvRow]
    | cons y ys =>
      simp only [gaeAdvRow, List.length_cons, ih]
      omega

/-- Pointwise characterisation of the backward GAE loop: the stacked
    advantages satisfy
    `adv[t] = rewards[t] + gamma * values[t+1] - values[t]
              + gamma * lambd * adv[t+1]`,
    where indexing past the end yields the boundary value 0 (matching
    `nextvalues = 0` at the last timestep and `lastgaelam` initialised 0). -/
lemma gaeAdvRow_getD (gamma lambd : ℚ) :
    ∀ (v r : List ℚ), v.length = r.length → ∀ t, t < r.length →
      (gaeAdvRow gamma lambd v r).getD t 0 =
        r.getD t 0 + gamma * v.getD (t + 1) 0 - v.getD t 0
          + gamma * lambd * (gaeAdvRow gamma lambd v r).getD (t + 1) 0 := by
  intro v
  induction v with
  | nil =>
    intro r h t ht
    rw [List.length_nil] at h
    rw [← h] at ht
    exact absurd ht (Nat.not_lt_zero t)
  | cons x xs ih =>
    intro r h t ht
    cases r with
    | nil => exact absurd ht (Nat.not_lt_zero t)
    | cons y ys =>
      cases t with
      | zero =>
        simp only [gaeAdvRow, List.getD_cons_zero, List.getD_cons_succ,
          headD_eq_getD]
      | succ t =>
        simp only [gaeAdvRow, List.getD_cons_succ]
        exact ih ys (by simpa using h) t (by simpa using ht)

lemma cumReturnRow_length (gamma : ℚ) (r : List ℚ) :
    (cumReturnRow gamma r).length = r.length := by
  induction r with
  | nil => rfl
  | cons x xs ih => simp [cumReturnRow, ih]

/-- Closed form of the backward cumulative-return accumulation:
    `returns[t] = ∑ k, gamma ^ k * rewards[t + k]` over the whole suffix. -/
lemma cumReturnRow_getD (gamma : ℚ) :
    ∀ (r : List ℚ) (t : ℕ),
      (cumReturnRow gamma r).getD t 0 =
        ∑ k ∈ Finset.range (r.length - t), gamma ^ k * r.getD (t + k) 0 := by
  intro r
  induction r with
  | nil => intro t; simp [cumReturnRow]
  | cons x xs ih =>
    intro t
    cases t with
    | zero =>
      simp only [cumReturnRow, List.getD_cons_zero, List.length_cons,
        Nat.sub_zero, headD_eq_getD]
      rw [Finset.sum_range_succ']
      simp only [Nat.zero_add, List.getD_cons_succ, List.getD_cons_zero,
        pow_zero, one_mul, pow_succ]
      rw [ih 0]
      simp only [Nat.sub_zero, Finset.mul_sum]
      rw [add_comm (∑ _k ∈ Finset.range xs.length, _) x]
      congr 1
      refine Finset.sum_congr rfl ?_
      intro k _
      ring_nf
    | succ t =>
      simp only [cumReturnRow, List.getD_cons_succ, List.length_cons,
        Nat.succ_sub_succ]
      rw [ih t]
      refine Finset.sum_congr rfl ?_
      intro k _
      congr 1
      have h1 : t + 1 + k = (t + k) + 1 := by omega
      rw [h1, List.getD_cons_succ]

/- More indexing helpers. -/

lemma getD_drop {α : Type} (l : List α) (n k : ℕ) (d : α) :
    (l.drop n).getD k d = l.getD (n + k) d := by
  induction l generalizing n with
  | nil => simp
  | cons x xs ih =>
    cases n with
    | zero => simp
    | succ n =>
      simp only [List.drop_succ_cons, ih]
      have h1 : n + 1 + k = (n + k) + 1 := by omega
      rw [h1, List.getD_cons_succ]

lemma getD_take {α : Type} (l : List α) (n k : ℕ) (d : α) (hk : k < n) :
    (l.take n).getD k d = l.getD k d := by
  induction l generalizing n k with
  | nil => simp
  | cons x xs ih =>
    cases n with
    | zero => exact absurd hk (Nat.not_lt_zero k)
    | succ n =>
      cases k with
      | zero => rfl
      | succ k =>
        simp only [List.take_succ_cons, List.getD_cons_succ]
        exact ih n k (by omega)

lemma getD_map {α β : Type} (f : α → β) (d1 : α) (d2 : β) (l : List α)
    (k : ℕ) (hk : k < l.length) :
    (l.map f).getD k d2 = f (l.getD k d1) := by
  induction l generalizing k with
  | nil => simp at hk
  | cons x xs ih =>
    cases k with
    | zero => rfl
    | succ k =>
      simp only [List.map_cons, List.getD_cons_succ]
      exact ih k (by simpa using hk)

lemma sum_take (xs : List ℚ) (n : ℕ) (hn : n ≤ xs.length) :
    (xs.take n).sum = ∑ k ∈ Finset.range n, xs.getD k 0 := by
  induction xs generalizing n with
  | nil =>
    have : n = 0 := by simpa using hn
    subst this; simp
  | cons x l ih =>
    cases n with
    | zero => simp
    | succ n =>
      simp only [List.take_succ_cons, List.sum_cons]
      rw [Finset.sum_range_succ']
      simp only [List.getD_cons_succ, List.getD_cons_zero]
      rw [ih n (by simpa using hn)]
      exact add_comm x _

/-- `reshape(-1, n)` for a flat list: consecutive rows of length `n` (all
    rows are full when `n` divides the length, the only case the code
    exercises). -/
def reshape2d {α : Type} (n : ℕ) (l : List α) : List (List α) :=
  if _h : n = 0 ∨ l.length = 0 then []
  else l.take n :: reshape2d n (l.drop n)
termination_by l.length
decreasing_by
  simp only [List.length_drop]
  omega

lemma reshape2d_getD {α : Type} (n : ℕ) (hn : 0 < n) :
    ∀ (i m : ℕ) (l : List α), l.length = m * n → i < m →
      (reshape2d n l).getD i [] = (l.drop (i * n)).take n := by
  intro i
  induction i with
  | zero =>
    intro m l hl hi
    have hlz : l.length ≠ 0 := by
      rw [hl]
      have : 0 < m * n := Nat.mul_pos hi hn
      omega
    rw [reshape2d, dif_neg (by push_neg; exact ⟨by omega, hlz⟩)]
    simp
  | succ i ih =>
    intro m l hl hi
    have hm : 1 ≤ m := by omega
    have hlz : l.length ≠ 0 := by
      rw [hl]
      have : 0 < m * n := Nat.mul_pos (by omega) hn
      omega
    rw [reshape2d, dif_neg (by push_neg; exact ⟨by omega, hlz⟩)]
    simp only [List.getD_cons_succ]
    have hdl : (l.drop n).length = (m - 1) * n := by
      simp only [List.length_drop, hl]
      have h1 : m = (m - 1) + 1 := by omega
      calc m * n - n = ((m - 1) + 1) * n - n := by rw [← h1]
        _ = (m - 1) * n + n - n := by rw [Nat.succ_mul]
        _ = (m - 1) * n := by omega
    rw [ih (m - 1) (l.drop n) hdl (by omega), List.drop_drop]
    congr 2
    have h2 : (i + 1) * n = i * n + n := Nat.succ_mul i n
    omega

lemma reshape2d_row_length {α : Type} (n : ℕ) (hn : 0 < n) (i m : ℕ)
    (l : List α) (hl : l.length = m * n) (hi : i < m) :
    ((reshape2d n l).getD i []).length = n := by
  rw [reshape2d_getD n hn i m l hl hi]
  simp only [List.length_take, List.length_drop, hl]
  have h1 : i + 1 ≤ m := hi
  have h2 : (i + 1) * n ≤ m * n := Nat.mul_le_mul_right n h1
  have h3 : i * n + n ≤ m * n := by
    rw [Nat.succ_mul] at h2
    omega
  omega

lemma reshape2d_mem_ne_nil {α : Type} (n : ℕ) (l : List α) :
    ∀ row ∈ reshape2d n l, row ≠ [] := by
  rw [reshape2d]
  split
  · simp
  · next h =>
    push_neg at h
    intro row hrow
    rcases List.mem_cons.mp hrow with h1 | h2
    · subst h1
      intro hc
      have hlen : (l.take n).length = 0 := by rw [hc]; rfl
      rw [List.length_take] at hlen
      omega
    · exact reshape2d_mem_ne_nil n (l.drop n) row h2
termination_by l.length
decreasing_by
  simp only [List.length_drop]
  omega

/-- RLOO leave-one-out baseline of one same-prompt group, as computed by
    `baseline = (rewards.sum(-1, keepdim=True) - rewards)
                / (args.n_samples_per_prompt - 1)`. -/
def rlooBaselineRow (n : ℕ) (g : List ℚ) : List ℚ :=
  g.map (fun x => (g.sum - x) / ((n : ℚ) - 1))

/-- `rewards = rewards - baseline` for one same-prompt group. -/
def rlooShapedRow (n : ℕ) (g : List ℚ) : List ℚ :=
  List.zipWith (· - ·) g (rlooBaselineRow n g)

/-- The `advantage_estimator == "rloo"` branch of
    `NaiveExperienceMaker.process_experiences`: reshape the concatenated flat
    reward vector into `[num_prompts, n_samples_per_prompt]` and subtract the
    leave-one-out baseline row by row. -/
def process_experiences_rloo (n : ℕ) (flat : List ℚ) : List (List ℚ) :=
  (reshape2d n flat).map (rlooShapedRow n)

/-- Mean along the group dimension, `reward.mean(1, keepdim=True)` for one
    group row. -/
def listMean (g : List ℚ) : ℚ := g.sum / (g.length : ℚ)

/-- Bessel-corrected sample variance: the square of `reward.std(1)`
    (`torch.std` defaults to the unbiased estimator, dividing by `n - 1`). -/
def sampleVar (g : List ℚ) : ℚ :=
  ((g.map (fun x => (x - listMean g) ^ 2)).sum) / ((g.length : ℚ) - 1)

/-- Per-item scalar group reward: the sum of the named reward components in
    the order the code adds them
    (`reward = length_reward + label_reward` and, when at least 3 components
    are present, `reward = length_reward + label_reward + pattern_reward`),
    with `label = component 0`, `length = component 1`,
    `pattern = component 2`. -/
def componentSum (k : ℕ) (comps : List ℚ) : ℚ :=
  if 3 ≤ k then comps.getD 1 0 + comps.getD 0 0 + comps.getD 2 0
  else comps.getD 1 0 + comps.getD 0 0

/-- Group normalisation `(reward - mean) / (std + 1e-8)` applied to one
    same-prompt group.  `torch.std` produces a square root that is in general
    irrational, so the group standard deviation is passed as a parameter
    `std`; where a theorem needs the true value it is characterised by
    `0 ≤ std ∧ std ^ 2 = sampleVar g`. -/
def groupNormRow (std : ℚ) (g : List ℚ) : List ℚ :=
  g.map (fun x => (x - listMean g) / (std + 1 / 100000000))

/-- The `advantage_estimator == "group_norm"` reward-shaping path of
    `make_experience_list`: per-item component summation, reshape into
    `[num_prompts, n_samples_per_prompt]`, then rowwise normalisation by the
    in-group mean and standard deviation. -/
def groupNormShape (stdFn : List ℚ → ℚ) (n k : ℕ)
    (reward : List (List ℚ)) : List (List ℚ) :=
  (reshape2d n (reward.map (componentSum k))).map
    (fun g => groupNormRow (stdFn g) g)

lemma sum_map_mul_const (g : List ℚ) (f : ℚ → ℚ) (c : ℚ) :
    (g.map (fun x => f x * c)).sum = (g.map f).sum * c := by
  induction g with
  | nil => simp
  | cons x xs ih => simp [ih]; ring

lemma sum_map_sub_const (g : List ℚ) (m : ℚ) :
    (g.map (fun x => x - m)).sum = g.sum - (g.length : ℚ) * m := by
  induction g with
  | nil => simp
  | cons x xs ih =>
    simp only [List.map_cons, List.sum_cons, ih, List.length_cons]
    push_cast
    ring

/-- Each normalised group sums to exactly 0: the numerators are centred on
    the group mean, and the denominator is constant within the group. -/
lemma groupNormRow_sum_zero (std : ℚ) (g : List ℚ) (hg : g ≠ []) :
    (groupNormRow std g).sum = 0 := by
  unfold groupNormRow
  have hlen : (g.length : ℚ) ≠ 0 := by
    have : 0 < g.length := List.length_pos.mpr hg
    exact_mod_cast Nat.pos_iff_ne_zero.mp this
  have h1 : ∀ x : ℚ, (x - listMean g) / (std + 1 / 100000000) =
      (x - listMean g) * (std + 1 / 100000000)⁻¹ := fun x => div_eq_mul_inv _ _
  simp only [h1]
  rw [sum_map_mul_const, sum_map_sub_const]
  unfold listMean
  rw [mul_div_cancel₀ _ hlen]
  ring

/-! ## ExperienceModel: the `Experience` container and its merge algebra -/

/-- Python-dict key lookup (`d[k]`), returning `none` for a `KeyError`.
    Association lists keep insertion order; lookup finds the first
    occurrence. -/
def dictLookup {κ α : Type} [DecidableEq κ] (d : List (κ × α)) (k : κ) :
    Option α :=
  match d with
  | [] => none
  | (k1, v1) :: rest => if k1 = k then some v1 else dictLookup rest k


/-- A 2-D tensor whose outer dimension is the batch dimension. -/
abbrev Tensor := List (List ℚ)

/-- A value stored in the `info` / `visual_inputs` mappings: a tensor, a
    numeric scalar, or a plain Python list (modelled with rational
    entries). -/
inductive InfoVal
  | tensor : Tensor → InfoVal
  | scalar : ℚ → InfoVal
  | vlist : List ℚ → InfoVal
deriving DecidableEq

/-- Errors raised while merging two experiences: a `KeyError` from
    `other.info[k]` when `k` is present only in `self.info`, and a
    `TypeError` from combining values of incompatible kinds with
    `torch.cat` / `+`. -/
inductive MergeErr
  | keyError
  | typeError
deriving DecidableEq

/-- `conditional_cat` restricted to the dataclass tensor fields of
    `Experience`: when both operands are present they are concatenated along
    the batch dimension (`torch.cat(..., dim=0)`); when either operand is
    `None` the result is `None`. -/
def conditional_cat_tensor (a b : Option Tensor) : Option Tensor :=
  match a, b with
  | some x, some y => some (x ++ y)
  | _, _ => none

/-- `conditional_cat`'s combination step on `info` / `visual_inputs` values:
    `isinstance(attr1, torch.Tensor)` selects `torch.cat(..., dim=0)`, any
    other first operand is combined with Python `+` (numeric addition for
    scalars, concatenation for lists).  Combining operands of different
    kinds raises in Python and is modelled as `none`. -/
def conditional_cat_val : InfoVal → InfoVal → Option InfoVal
  | .tensor x, .tensor y => some (.tensor (x ++ y))
  | .scalar x, .scalar y => some (.scalar (x + y))
  | .vlist x, .vlist y => some (.vlist (x ++ y))
  | _, _ => none

/-- The `info` (and `visual_inputs`) merge loop of `Experience.__add__`:
    `for k in self.info.keys(): info[k] = conditional_cat(self.info[k],
    other.info[k])`, iterating the left operand's keys in order; a key
    missing from the right operand raises `KeyError` as soon as it is
    reached. -/
def mergeInfo (i1 i2 : List (String × InfoVal)) :
    Except MergeErr (List (String × InfoVal)) :=
  match i1 with
  | [] => .ok []
  | (k, v) :: rest =>
    match dictLookup i2 k with
    | none => .error .keyError
    | some w =>
      match conditional_cat_val v w with
      | none => .error .typeError
      | some u =>
        match mergeInfo rest i2 with
        | .error e => .error e
        | .ok r => .ok ((k, u) :: r)

/-- The `Experience` dataclass: one scored batch.  Tensor fields are
    `Option Tensor` (`None` in the dataclass is `none`); `info` and
    `visual_inputs` are insertion-ordered string-keyed mappings. -/
structure Experience where
  sequences : Option Tensor
  action_log_probs : Option Tensor
  values : Option Tensor
  returns : Option Tensor
  advantages : Option Tensor
  attention_mask : Option Tensor
  action_mask : Option Tensor
  info : List (String × InfoVal)
  kl : Option Tensor
  ref_log_probs : Option Tensor
  visual_inputs : List (String × InfoVal)
deriving DecidableEq

/-- `Experience.__add__`: merge `info` and `visual_inputs` key by key, then
    apply `conditional_cat` to every tensor field. -/
def Experience.add (self other : Experience) : Except MergeErr Experience :=
  match mergeInfo self.info other.info with
  | .error e => .error e
  | .ok info =>
    match mergeInfo self.visual_inputs other.visual_inputs with
    | .error e => .error e
    | .ok visual_inputs =>
      .ok {
        sequences := conditional_cat_tensor self.sequences other.sequences
        action_log_probs :=
          conditional_cat_tensor self.action_log_probs other.action_log_probs
        values := conditional_cat_tensor self.values other.values
        returns := conditional_cat_tensor self.returns other.returns
        advantages := conditional_cat_tensor self.advantages other.advantages
        attention_mask :=
          conditional_cat_tensor self.attention_mask other.attention_mask
        action_mask :=
          conditional_cat_tensor self.action_mask other.action_mask
        info := info
        kl := conditional_cat_tensor self.kl other.kl
        ref_log_probs :=
          conditional_cat_tensor self.ref_log_probs other.ref_log_probs
        visual_inputs := visual_inputs }

/-- `Experience.__radd__`: `0 + experience = experience` (Python `sum`
    starts its fold at the integer 0); any other non-`Experience` left
    operand raises a `TypeError`. -/
def Experience.radd (self : Experience) (other : ℕ) :
    Except MergeErr Experience :=
  if other = 0 then .ok self else .error .typeError

/-- The tail of Python `sum(experiences)`: left fold of `__add__` over the
    remaining experiences. -/
def pySumAux (acc : Experience) : List Experience → Except MergeErr Experience
  | [] => .ok acc
  | e :: rest =>
    match acc.add e with
    | .error er => .error er
    | .ok m => pySumAux m rest

/-- Python `sum(experiences)`: the fold starts from the integer 0, so the
    first combination dispatches to `Experience.__radd__`; summing an empty
    list stays the integer 0 (`none` here). -/
def pySum : List Experience → Except MergeErr (Option Experience)
  | [] => .ok none
  | e :: rest =>
    match e.radd 0 with
    | .error er => .error er
    | .ok e0 =>
      match pySumAux e0 rest with
      | .error er => .error er
      | .ok m => .ok (some m)

/-- The `advantage_estimator == "group_norm"` branch of
    `process_experiences`: `return [sum(experiences)], ...` — the whole
    batch is first merged into a single experience. -/
def process_experiences_group_norm (exps : List Experience) :
    Except MergeErr (List Experience) :=
  match pySum exps with
  | .error e => .error e
  | .ok none => .ok []
  | .ok (some m) => .ok [m]

/-- Batch size of an optional tensor field (number of rows; 0 when
    absent). -/
def batchSize (t : Option Tensor) : ℕ :=
  match t with
  | some x => x.length
  | none => 0

/-! ## RequestAggregator: `LLMRayActor.add_requests` / `get_responses` -/

/-- Fatal Python exceptions observable from the aggregator: the
    `assert len(self.requests) == self.num_actors` failure, the `KeyError`
    from `self.responses.pop(actor_rank)`, and the `AttributeError` from
    reading `self.responses` before any round has dispatched. -/
inductive AggError
  | assertionError
  | keyError
  | attributeError
deriving DecidableEq

/-- Python-dict insertion: replacing the value of an existing key keeps its
    position in the iteration order; a new key is appended at the end. -/
def dictInsert {α : Type} (d : List (ℕ × α)) (k : ℕ) (v : α) : List (ℕ × α) :=
  match d with
  | [] => [(k, v)]
  | (k1, v1) :: rest =>
    if k1 = k then (k, v) :: rest else (k1, v1) :: dictInsert rest k v

/-- Python `dict.pop(k)`: remove and return the entry of `k`, keeping every
    other entry in order; `none` models the `KeyError`. -/
def dictPop {α : Type} (d : List (ℕ × α)) (k : ℕ) :
    Option (α × List (ℕ × α)) :=
  match d with
  | [] => none
  | (k1, v1) :: rest =>
    if k1 = k then some (v1, rest)
    else
      match dictPop rest k with
      | none => none
      | some (v2, rest2) => some (v2, (k1, v1) :: rest2)

/-- `LLMRayActor` aggregation state: the expected producer count
    (`self.num_actors`), the per-round registration counter
    (`self.actor_counter`), the pending request dict (`self.requests`,
    insertion-ordered), and the sliced result dict (`self.responses`, which
    does not exist — `none` — before the first dispatch). -/
structure AggState where
  num_actors : ℕ
  actor_counter : ℕ
  requests : List (ℕ × List ℕ)
  responses : Option (List (ℕ × List ℕ))
deriving DecidableEq

/-- The dispatch slicing loop: walk the recorded `(actor_rank, len(request))`
    pairs and hand each producer the next `num` responses
    (`self.responses[actor_rank] = responses[offset : offset + num]`). -/
def sliceBack (nums : List (ℕ × ℕ)) (resp : List ℕ) : List (ℕ × List ℕ) :=
  match nums with
  | [] => []
  | (r, num) :: rest => (r, resp.take num) :: sliceBack rest (resp.drop num)

/-- `LLMRayActor.add_requests`.  `gen` stands for `self.llm.generate`
    (request and response items are opaque, modelled by `ℕ`); the second
    component of the result records the payload of every generation call
    issued during this invocation, so that call counts are provable.
    The pending payload is stored under `actor_rank`, the counter is
    incremented, and when it reaches `num_actors` the pending payloads are
    concatenated by iterating `self.requests.items()` — Python dict
    insertion order — the combined call is issued (skipped when empty), the
    result is sliced back per producer, and the round state is reset. -/
def add_requests (gen : List ℕ → List ℕ) (s : AggState) (actor_rank : ℕ)
    (prompt_token_ids : List ℕ) :
    Except AggError (AggState × List (List ℕ)) :=
  let requests := dictInsert s.requests actor_rank prompt_token_ids
  let counter := s.actor_counter + 1
  if counter = s.num_actors then
    if requests.length = s.num_actors then
      let num_requests := requests.map (fun p => (p.1, p.2.length))
      let combined := (requests.map Prod.snd).flatten
      let responses := if 0 < combined.length then gen combined else []
      let genCalls := if 0 < combined.length then [combined] else []
      Except.ok
        ({ s with
            actor_counter := 0
            requests := []
            responses := some (sliceBack num_requests responses) }, genCalls)
    else Except.error .assertionError
  else
    Except.ok ({ s with actor_counter := counter, requests := requests }, [])

/-- `LLMRayActor.get_responses`: `return self.responses.pop(actor_rank)`;
    reading `self.responses` before any dispatch raises `AttributeError`,
    popping an absent rank raises `KeyError`. -/
def get_responses (s : AggState) (actor_rank : ℕ) :
    Except AggError (List ℕ × AggState) :=
  match s.responses with
  | none => Except.error .attributeError
  | some resp =>
    match dictPop resp actor_rank with
    | none => Except.error .keyError
    | some (v, rest) => Except.ok (v, { s with responses := some rest })

lemma sliceBack_fst (nums : List (ℕ × ℕ)) (resp : List ℕ) :
    (sliceBack nums resp).map Prod.fst = nums.map Prod.fst := by
  induction nums generalizing resp with
  | nil => rfl
  | cons p rest ih => simp [sliceBack, ih]

/-- When the recorded lengths account for the whole response list, the
    per-producer slices concatenate back to it in stored order. -/
lemma sliceBack_flatten (nums : List (ℕ × ℕ)) (resp : List ℕ)
    (h : (nums.map Prod.snd).sum = resp.length) :
    ((sliceBack nums resp).map Prod.snd).flatten = resp := by
  induction nums generalizing resp with
  | nil =>
    simp only [List.map_nil, List.sum_nil] at h
    simp [sliceBack, (List.eq_nil_of_length_eq_zero h.symm)]
  | cons p rest ih =>
    simp only [List.map_cons, List.sum_cons] at h
    simp only [sliceBack, List.map_cons, List.flatten_cons]
    rw [ih (resp.drop p.2) (by simp only [List.length_drop]; omega)]
    exact List.take_append_drop p.2 resp

lemma dictPop_of_dictLookup_none {α : Type} (d : List (ℕ × α)) (k : ℕ)
    (h : dictLookup d k = none) : dictPop d k = none := by
  induction d with
  | nil => rfl
  | cons p rest ih =>
    obtain ⟨k1, v1⟩ := p
    by_cases hk : k1 = k
    · subst hk
      simp [dictLookup] at h
    · simp only [dictLookup, if_neg hk] at h
      simp [dictPop, hk, ih h]

lemma dictPop_of_dictLookup_some {α : Type} (d : List (ℕ × α)) (k : ℕ) (v : α)
    (h : dictLookup d k = some v) : ∃ rest, dictPop d k = some (v, rest) := by
  induction d with
  | nil => simp [dictLookup] at h
  | cons p tail ih =>
    obtain ⟨k1, v1⟩ := p
    by_cases hk : k1 = k
    · subst hk
      rw [dictLookup, if_pos rfl, Option.some_inj] at h
      exact ⟨tail, by simp [dictPop, h]⟩
    · simp only [dictLookup, if_neg hk] at h
      obtain ⟨rest2, h2⟩ := ih h
      exact ⟨(k1, v1) :: rest2, by simp [dictPop, hk, h2]⟩

/-! ## Ordering of configuration checks in `make_experience_list` -/

/-- Coarse events of one `make_experience_list` rollout: remote generation,
    remote scoring, a fatal configuration error (failed
    `n_samples_per_prompt > 1` assertion or the
    `Unkown advantage_estimator` exception), and the advantage/return
    computation that follows when the configuration is accepted. -/
inductive Event
  | generate
  | score
  | configError
  | computeAdvantages
deriving DecidableEq

/-- The advantage-estimator names `make_experience_list` dispatches on. -/
def knownEstimators : List String :=
  ["gae", "reinforce", "rloo", "reinforce++", "group_norm"]

/-- Control-flow skeleton of `NaiveExperienceMaker.make_experience_list`:
    it first generates (`generate_samples`), then scores every micro-batch
    (`make_experience`), and only then — inside the per-experience loop —
    asserts `n_samples_per_prompt > 1` for the `group_norm` / `reinforce++`
    paths and dispatches on the estimator name, raising
    `Unkown advantage_estimator` in the final `else`.  The trace stops at
    the first fatal error. -/
def make_experience_list_trace (estimator : String)
    (n_samples_per_prompt : ℕ) : List Event :=
  [Event.generate, Event.score] ++
    (if (estimator = "group_norm" ∨ estimator = "reinforce++")
        ∧ ¬ 1 < n_samples_per_prompt then
      [Event.configError]
    else if estimator ∈ knownEstimators then [Event.computeAdvantages]
    else [Event.configError])

/-! ## Claim theorems -/

/-- C1: for every batched rewards/values pair (shape `[batch,
    response_length]`) and any action mask, `get_advantages_and_returns`
    computes the GAE backward recurrence
    `delta_t = r_t + gamma * v_{t+1} - v_t` (with `v_{T+1} = 0` at the final
    timestep) and `lastgae_t = delta_t + gamma * lambd * lastgae_{t+1}`
    (`lastgae` initialised to 0), and the returned tensors satisfy
    `returns = advantages + values` elementwise — `r` and `v` being the
    mask-adjusted rewards and values the code overwrites before the loop
    (`values = action_mask * values`, `rewards = action_mask * rewards`);
    out-of-range `getD` indices encode the zero boundary values. -/
theorem C1_gae_recurrence (gamma lambd : ℚ)
    (values rewards : List (List ℚ)) (action_mask : Option (List (List ℚ)))
    (b t : ℕ)
    (hbv : b < (applyMask action_mask values).length)
    (hb : b < (applyMask action_mask rewards).length)
    (hrow : ((applyMask action_mask values).getD b []).length
          = ((applyMask action_mask rewards).getD b []).length)
    (ht : t < ((applyMask action_mask rewards).getD b []).length) :
    ((get_advantages_and_returns gamma lambd values rewards action_mask).1.getD
        b []).getD t 0
      = ((applyMask action_mask rewards).getD b []).getD t 0
        + gamma * ((applyMask action_mask values).getD b []).getD (t + 1) 0
        - ((applyMask action_mask values).getD b []).getD t 0
        + gamma * lambd *
          ((get_advantages_and_returns gamma lambd values rewards
              action_mask).1.getD b []).getD (t + 1) 0
    ∧ ((get_advantages_and_returns gamma lambd values rewards
          action_mask).2.getD b []).getD t 0
      = ((get_advantages_and_returns gamma lambd values rewards
            action_mask).1.getD b []).getD t 0
        + ((applyMask action_mask values).getD b []).getD t 0 := by
  have h1 : (get_advantages_and_returns gamma lambd values rewards
      action_mask).1
      = List.zipWith (gaeAdvRow gamma lambd) (applyMask action_mask values)
          (applyMask action_mask rewards) := rfl
  have h2 : (get_advantages_and_returns gamma lambd values rewards
      action_mask).2
      = List.zipWith (List.zipWith (· + ·))
          (List.zipWith (gaeAdvRow gamma lambd)
            (applyMask action_mask values) (applyMask action_mask rewards))
          (applyMask action_mask values) := rfl
  rw [h1, h2]
  rw [getD_zipWith (gaeAdvRow gamma lambd) [] [] []
    (applyMask action_mask values) (applyMask action_mask rewards) b hbv hb]
  have hbadv : b < (List.zipWith (gaeAdvRow gamma lambd)
      (applyMask action_mask values) (applyMask action_mask rewards)).length := by
    rw [List.length_zipWith]
    omega
  rw [getD_zipWith (List.zipWith (· + ·)) [] [] []
    (List.zipWith (gaeAdvRow gamma lambd) (applyMask action_mask values)
      (applyMask action_mask rewards))
    (applyMask action_mask values) b hbadv hbv]
  rw [getD_zipWith (gaeAdvRow gamma lambd) [] [] []
    (applyMask action_mask values) (applyMask action_mask rewards) b hbv hb]
  have htadv : t < (gaeAdvRow gamma lambd
      ((applyMask action_mask values).getD b [])
      ((applyMask action_mask rewards).getD b [])).length := by
    rw [gaeAdvRow_length]
    omega
  have htv : t < ((applyMask action_mask values).getD b []).length := by omega
  constructor
  · exact gaeAdvRow_getD gamma lambd
      ((applyMask action_mask values).getD b [])
      ((applyMask action_mask rewards).getD b []) hrow t ht
  · exact getD_zipWith (· + ·) 0 0 0 _ _ t htadv htv

def c1Values : List (List ℚ) := [[1, 2]]

def c1Rewards : List (List ℚ) := [[3, 4]]

def c1Mask : Option (List (List ℚ)) := some [[1, 1]]

/-- Witness for C1 at a concrete batch. -/
theorem C1_gae_recurrence_witness :
    (0 < (applyMask c1Mask c1Values).length)
    ∧ (0 < (applyMask c1Mask c1Rewards).length)
    ∧ (((applyMask c1Mask c1Values).getD 0 []).length
        = ((applyMask c1Mask c1Rewards).getD 0 []).length)
    ∧ (0 < ((applyMask c1Mask c1Rewards).getD 0 []).length)
    ∧ (((get_advantages_and_returns 1 (1/2) c1Values c1Rewards c1Mask).1.getD
          0 []).getD 0 0
        = ((applyMask c1Mask c1Rewards).getD 0 []).getD 0 0
          + 1 * ((applyMask c1Mask c1Values).getD 0 []).getD (0 + 1) 0
          - ((applyMask c1Mask c1Values).getD 0 []).getD 0 0
          + 1 * (1/2) *
            ((get_advantages_and_returns 1 (1/2) c1Values c1Rewards
                c1Mask).1.getD 0 []).getD (0 + 1) 0
      ∧ ((get_advantages_and_returns 1 (1/2) c1Values c1Rewards
            c1Mask).2.getD 0 []).getD 0 0
        = ((get_advantages_and_returns 1 (1/2) c1Values c1Rewards
              c1Mask).1.getD 0 []).getD 0 0
          + ((applyMask c1Mask c1Values).getD 0 []).getD 0 0) :=
  ⟨by decide, by decide, by decide, by decide,
    C1_gae_recurrence 1 (1/2) c1Values c1Rewards c1Mask 0 0 (by decide)
      (by decide) (by decide) (by decide)⟩

lemma maskRow_ones (row : List ℚ) :
    maskRow (row.map (fun _ => (1 : ℚ))) row = row := by
  induction row with
  | nil => rfl
  | cons x xs ih => simp [maskRow, List.zipWith] at ih ⊢; exact ih

lemma applyMask_ones (x : List (List ℚ)) :
    applyMask (some (x.map (fun row => row.map (fun _ => (1 : ℚ))))) x = x := by
  unfold applyMask
  induction x with
  | nil => rfl
  | cons row rows ih =>
    simp only [List.map_cons, List.zipWith_cons_cons, maskRow_ones]
    rw [List.cons_inj_right]
    exact ih

/-- C2: with an all-ones action mask and discount `gamma`,
    `get_cumulative_returns` yields
    `returns[t] = ∑ k ≥ t, gamma ^ (k - t) * r_k` on every row, and in
    particular rewards `[1, 1, 1]` with `gamma = 0.5` yield
    `[1.75, 1.5, 1.0]`. -/
theorem C2_cumulative_returns (gamma : ℚ) (rewards : List (List ℚ))
    (mask : List (List ℚ))
    (hmask : mask = rewards.map (fun row => row.map (fun _ => (1 : ℚ))))
    (b t : ℕ) (hb : b < rewards.length) :
    ((get_cumulative_returns gamma rewards (some mask)).getD b []).getD t 0
      = ∑ k ∈ Finset.range ((rewards.getD b []).length - t),
          gamma ^ k * (rewards.getD b []).getD (t + k) 0
    ∧ get_cumulative_returns (1/2) [[1, 1, 1]] (some [[1, 1, 1]])
      = [[7/4, 3/2, 1]] := by
  constructor
  · unfold get_cumulative_returns
    rw [hmask, applyMask_ones]
    rw [getD_map (cumReturnRow gamma) [] [] rewards b hb]
    exact cumReturnRow_getD gamma (rewards.getD b []) t
  · norm_num [get_cumulative_returns, applyMask, maskRow, cumReturnRow,
      List.zipWith]

/-- Witness for C2 at the concrete example from the spec. -/
theorem C2_cumulative_returns_witness :
    ([[(1 : ℚ), 1, 1]]
        = [[(1 : ℚ), 1, 1]].map (fun row => row.map (fun _ => (1 : ℚ))))
    ∧ (0 < [[(1 : ℚ), 1, 1]].length)
    ∧ (((get_cumulative_returns (1/2) [[(1 : ℚ), 1, 1]]
          (some [[(1 : ℚ), 1, 1]])).getD 0 []).getD 1 0
        = ∑ k ∈ Finset.range (([[(1 : ℚ), 1, 1]].getD 0 []).length - 1),
            (1/2 : ℚ) ^ k * ([[(1 : ℚ), 1, 1]].getD 0 []).getD (1 + k) 0
      ∧ get_cumulative_returns (1/2) [[1, 1, 1]] (some [[1, 1, 1]])
        = [[7/4, 3/2, 1]]) :=
  ⟨by decide, by decide,
    C2_cumulative_returns (1/2) [[(1 : ℚ), 1, 1]] [[(1 : ℚ), 1, 1]]
      (by decide) 0 1 (by decide)⟩

lemma reshape2d_length {α : Type} (n : ℕ) (hn : 0 < n) :
    ∀ (m : ℕ) (l : List α), l.length = m * n → (reshape2d n l).length = m := by
  intro m
  induction m with
  | zero =>
    intro l hl
    rw [Nat.zero_mul] at hl
    rw [reshape2d, dif_pos (Or.inr hl)]
    rfl
  | succ m ih =>
    intro l hl
    have hstep : (m + 1) * n = m * n + n := by ring
    have hlz : l.length ≠ 0 := by
      rw [hl, hstep]
      omega
    rw [reshape2d, dif_neg (by push_neg; exact ⟨by omega, hlz⟩)]
    have hdl : (l.drop n).length = m * n := by
      rw [List.length_drop, hl, hstep]
      omega
    rw [List.length_cons, ih (l.drop n) hdl]

/-- C3: under the rloo policy, `process_experiences` reshapes the flat
    reward vector into `[num_prompts, n_samples_per_prompt]` and returns
    `shaped[i, j] = reward[i, j]
      - (∑ k, reward[i, k] - reward[i, j]) / (n_samples_per_prompt - 1)`;
    for the group `[2, 4, 6]` the baseline is `[5, 4, 3]` and the shaped
    reward is `[-3, 0, 3]`. -/
theorem C3_rloo_shaping (n m : ℕ) (flat : List ℚ) (hn : 1 < n)
    (hlen : flat.length = m * n) (i j : ℕ) (hi : i < m) (hj : j < n) :
    ((process_experiences_rloo n flat).getD i []).getD j 0
      = flat.getD (i * n + j) 0
        - ((∑ k ∈ Finset.range n, flat.getD (i * n + k) 0)
            - flat.getD (i * n + j) 0) / ((n : ℚ) - 1)
    ∧ rlooBaselineRow 3 [2, 4, 6] = [5, 4, 3]
    ∧ process_experiences_rloo 3 [2, 4, 6] = [[-3, 0, 3]] := by
  have hn0 : 0 < n := by omega
  refine ⟨?_, ?_, ?_⟩
  · have hL : (reshape2d n flat).length = m := reshape2d_length n hn0 m flat hlen
    unfold process_experiences_rloo
    rw [getD_map (rlooShapedRow n) [] [] _ i (by rw [hL]; exact hi)]
    rw [reshape2d_getD n hn0 i m flat hlen hi]
    set g := (flat.drop (i * n)).take n with hg
    have hmul : (i + 1) * n ≤ m * n := Nat.mul_le_mul_right n hi
    rw [Nat.succ_mul] at hmul
    have hglen : g.length = n := by
      rw [hg]
      simp only [List.length_take, List.length_drop, hlen]
      omega
    unfold rlooShapedRow rlooBaselineRow
    rw [getD_zipWith (· - ·) 0 0 0 g _ j (by omega)
      (by rw [List.length_map]; omega)]
    rw [getD_map (fun x => (g.sum - x) / ((n : ℚ) - 1)) 0 0 g j (by omega)]
    have hgj : g.getD j 0 = flat.getD (i * n + j) 0 := by
      rw [hg, getD_take _ _ _ _ hj, getD_drop]
    have hgsum : g.sum = ∑ k ∈ Finset.range n, flat.getD (i * n + k) 0 := by
      rw [hg, sum_take _ n (by simp only [List.length_drop, hlen]; omega)]
      exact Finset.sum_congr rfl (fun k _ => by rw [getD_drop])
    rw [hgj, hgsum]
  · norm_num [rlooBaselineRow]
  · have h0 : reshape2d 3 ([] : List ℚ) = [] := by
      rw [reshape2d]
      simp
    have h1 : reshape2d 3 [(2 : ℚ), 4, 6] = [[(2 : ℚ), 4, 6]] := by
      rw [reshape2d]
      rw [dif_neg (by simp)]
      norm_num [h0]
    norm_num [process_experiences_rloo, h1, rlooShapedRow, rlooBaselineRow,
      List.zipWith]

/-- Witness for C3 at the concrete group from the spec. -/
theorem C3_rloo_shaping_witness :
    (1 < 3) ∧ ([(2 : ℚ), 4, 6].length = 1 * 3) ∧ (0 < 1) ∧ (0 < 3)
    ∧ (((process_experiences_rloo 3 [(2 : ℚ), 4, 6]).getD 0 []).getD 0 0
        = [(2 : ℚ), 4, 6].getD (0 * 3 + 0) 0
          - ((∑ k ∈ Finset.range 3, [(2 : ℚ), 4, 6].getD (0 * 3 + k) 0)
              - [(2 : ℚ), 4, 6].getD (0 * 3 + 0) 0) / ((3 : ℚ) - 1)
      ∧ rlooBaselineRow 3 [2, 4, 6] = [5, 4, 3]
      ∧ process_experiences_rloo 3 [2, 4, 6] = [[-3, 0, 3]]) :=
  ⟨by decide, by decide, by decide, by decide,
    C3_rloo_shaping 3 1 [(2 : ℚ), 4, 6] (by decide) (by decide) 0 0
      (by decide) (by decide)⟩

/-- C7: under group_norm shaping the shaped reward is
    `(sum_of_components - in-group mean) / (in-group std + 1e-8)` computed
    after all experiences are merged into one (`process_experiences`
    returns `[sum(experiences)]`), and the shaped values within each group
    sum to exactly 0 (hence "approximately 0" within floating tolerance),
    for any value of the group standard deviation; the group `[1, 2, 3, 4]`
    has mean `2.5`. -/
theorem C7_group_norm_shaping (stdFn : List ℚ → ℚ) (n k : ℕ)
    (reward : List (List ℚ)) (row : List ℚ)
    (hrow : row ∈ groupNormShape stdFn n k reward) :
    row.sum = 0
    ∧ (∀ (exps : List Experience) (m : Experience),
        pySum exps = Except.ok (some m) →
        process_experiences_group_norm exps = Except.ok [m])
    ∧ listMean [1, 2, 3, 4] = 5/2 := by
  refine ⟨?_, ?_, ?_⟩
  · unfold groupNormShape at hrow
    obtain ⟨g, hg, hrow2⟩ := List.mem_map.mp hrow
    rw [← hrow2]
    exact groupNormRow_sum_zero (stdFn g) g
      (reshape2d_mem_ne_nil n _ g hg)
  · intro exps m hm
    unfold process_experiences_group_norm
    rw [hm]
  · norm_num [listMean]

/-- Witness for C7 at a concrete two-sample group. -/
theorem C7_group_norm_shaping_witness :
    (groupNormRow 1 [3, 7]
        ∈ groupNormShape (fun _ => (1 : ℚ)) 2 2 [[1, 2], [3, 4]])
    ∧ (groupNormRow 1 [3, 7]).sum = 0 := by
  have h0 : reshape2d 2 ([] : List ℚ) = [] := by
    rw [reshape2d]
    simp
  have h1 : reshape2d 2 [(3 : ℚ), 7] = [[(3 : ℚ), 7]] := by
    rw [reshape2d]
    rw [dif_neg (by simp)]
    norm_num [h0]
  have hmem : groupNormRow 1 [3, 7]
      ∈ groupNormShape (fun _ => (1 : ℚ)) 2 2 [[1, 2], [3, 4]] := by
    norm_num [groupNormShape, componentSum, h1]
  exact ⟨hmem,
    (C7_group_norm_shaping (fun _ => (1 : ℚ)) 2 2 [[1, 2], [3, 4]]
      (groupNormRow 1 [3, 7]) hmem).1⟩

lemma batchSize_conditional_cat (a b : Option Tensor) (ha : a ≠ none)
    (hb : b ≠ none) :
    batchSize (conditional_cat_tensor a b) = batchSize a + batchSize b := by
  cases a with
  | none => exact absurd rfl ha
  | some x =>
    cases b with
    | none => exact absurd rfl hb
    | some y => simp [conditional_cat_tensor, batchSize]

/-- C9: `Experience.__add__` concatenates every tensor field present in
    both operands along the batch dimension (batch sizes add, e.g.
    2 + 3 = 5), and the integer 0 is a neutral element via `__radd__`, so
    Python `sum` over experiences starts from the experience itself. -/
theorem C9_merge_batch_concat (e1 e2 m : Experience)
    (hm : e1.add e2 = Except.ok m) :
    (e1.sequences ≠ none → e2.sequences ≠ none →
      batchSize m.sequences = batchSize e1.sequences + batchSize e2.sequences)
    ∧ (e1.action_log_probs ≠ none → e2.action_log_probs ≠ none →
      batchSize m.action_log_probs
        = batchSize e1.action_log_probs + batchSize e2.action_log_probs)
    ∧ (e1.values ≠ none → e2.values ≠ none →
      batchSize m.values = batchSize e1.values + batchSize e2.values)
    ∧ (e1.returns ≠ none → e2.returns ≠ none →
      batchSize m.returns = batchSize e1.returns + batchSize e2.returns)
    ∧ (e1.advantages ≠ none → e2.advantages ≠ none →
      batchSize m.advantages
        = batchSize e1.advantages + batchSize e2.advantages)
    ∧ (e1.attention_mask ≠ none → e2.attention_mask ≠ none →
      batchSize m.attention_mask
        = batchSize e1.attention_mask + batchSize e2.attention_mask)
    ∧ (e1.action_mask ≠ none → e2.action_mask ≠ none →
      batchSize m.action_mask
        = batchSize e1.action_mask + batchSize e2.action_mask)
    ∧ (e1.kl ≠ none → e2.kl ≠ none →
      batchSize m.kl = batchSize e1.kl + batchSize e2.kl)
    ∧ (e1.ref_log_probs ≠ none → e2.ref_log_probs ≠ none →
      batchSize m.ref_log_probs
        = batchSize e1.ref_log_probs + batchSize e2.ref_log_probs)
    ∧ (∀ e : Experience, e.radd 0 = Except.ok e)
    ∧ (∀ e : Experience, pySum [e] = Except.ok (some e)) := by
  unfold Experience.add at hm
  cases h1 : mergeInfo e1.info e2.info with
  | error er =>
    rw [h1] at hm
    exact absurd hm (by simp)
  | ok info1 =>
    rw [h1] at hm
    cases h2 : mergeInfo e1.visual_inputs e2.visual_inputs with
    | error er =>
      rw [h2] at hm
      exact absurd hm (by simp)
    | ok vis1 =>
      rw [h2] at hm
      injection hm with hmrec
      subst hmrec
      exact ⟨fun ha hb => batchSize_conditional_cat _ _ ha hb,
        fun ha hb => batchSize_conditional_cat _ _ ha hb,
        fun ha hb => batchSize_conditional_cat _ _ ha hb,
        fun ha hb => batchSize_conditional_cat _ _ ha hb,
        fun ha hb => batchSize_conditional_cat _ _ ha hb,
        fun ha hb => batchSize_conditional_cat _ _ ha hb,
        fun ha hb => batchSize_conditional_cat _ _ ha hb,
        fun ha hb => batchSize_conditional_cat _ _ ha hb,
        fun ha hb => batchSize_conditional_cat _ _ ha hb,
        fun _ => rfl, fun _ => rfl⟩

def c9t2 : Tensor := [[1], [2]]

def c9t3 : Tensor := [[3], [4], [5]]

def c9e1 : Experience :=
  { sequences := some c9t2, action_log_probs := some c9t2,
    values := some c9t2, returns := some c9t2, advantages := some c9t2,
    attention_mask := some c9t2, action_mask := some c9t2, info := [],
    kl := some c9t2, ref_log_probs := some c9t2, visual_inputs := [] }

def c9e2 : Experience :=
  { sequences := some c9t3, action_log_probs := some c9t3,
    values := some c9t3, returns := some c9t3, advantages := some c9t3,
    attention_mask := some c9t3, action_mask := some c9t3, info := [],
    kl := some c9t3, ref_log_probs := some c9t3, visual_inputs := [] }

def c9m : Experience :=
  { sequences := some (c9t2 ++ c9t3),
    action_log_probs := some (c9t2 ++ c9t3), values := some (c9t2 ++ c9t3),
    returns := some (c9t2 ++ c9t3), advantages := some (c9t2 ++ c9t3),
    attention_mask := some (c9t2 ++ c9t3),
    action_mask := some (c9t2 ++ c9t3), info := [],
    kl := some (c9t2 ++ c9t3), ref_log_probs := some (c9t2 ++ c9t3),
    visual_inputs := [] }

/-- Witness for C9: merging a batch-2 experience with a batch-3 experience
    yields batch size 5. -/
theorem C9_merge_batch_concat_witness :
    (Experience.add c9e1 c9e2 = Except.ok c9m)
    ∧ c9e1.sequences ≠ none
    ∧ c9e2.sequences ≠ none
    ∧ batchSize c9m.sequences
      = batchSize c9e1.sequences + batchSize c9e2.sequences
    ∧ batchSize c9m.sequences = 5 :=
  ⟨rfl, by simp [c9e1], by simp [c9e2],
    (C9_merge_batch_concat c9e1 c9e2 c9m rfl).1 (by simp [c9e1])
      (by simp [c9e2]), rfl⟩

lemma mergeInfo_lookup :
    ∀ (i1 i2 r : List (String × InfoVal)) (k : String) (v w : InfoVal),
      mergeInfo i1 i2 = Except.ok r → dictLookup i1 k = some v →
      dictLookup i2 k = some w →
      dictLookup r k = conditional_cat_val v w := by
  intro i1
  induction i1 with
  | nil =>
    intro i2 r k v w _ hv _
    simp [dictLookup] at hv
  | cons p rest ih =>
    intro i2 r k v w hmerge hv hw
    obtain ⟨k1, v1⟩ := p
    unfold mergeInfo at hmerge
    cases hl : dictLookup i2 k1 with
    | none =>
      simp only [hl] at hmerge
      exact absurd hmerge (by simp)
    | some w1 =>
      simp only [hl] at hmerge
      cases hc : conditional_cat_val v1 w1 with
      | none =>
        simp only [hc] at hmerge
        exact absurd hmerge (by simp)
      | some u =>
        simp only [hc] at hmerge
        cases hrest : mergeInfo rest i2 with
        | error er =>
          simp only [hrest] at hmerge
          exact absurd hmerge (by simp)
        | ok r2 =>
          simp only [hrest, Except.ok.injEq] at hmerge
          have hr := hmerge
          subst hr
          by_cases hk : k1 = k
          · subst hk
            rw [dictLookup, if_pos rfl, Option.some_inj] at hv
            subst hv
            rw [hl, Option.some_inj] at hw
            subst hw
            rw [dictLookup, if_pos rfl]
            exact hc.symm
          · rw [dictLookup, if_neg hk] at hv
            rw [dictLookup, if_neg hk]
            exact ih i2 r2 k v w hrest hv hw

/-- C10: when two experiences are merged, `info` entries present in both
    are combined by `conditional_cat`: a non-tensor first operand uses
    Python `+` — numeric scalars add arithmetically (so a shared scalar
    `num_actions` of `A` becomes `2 * A`, not `A`) and lists concatenate —
    while tensor entries concatenate along dimension 0; the merged `info`
    map holds exactly that combined value for every key present in both
    operands. -/
theorem C10_info_plus_combination :
    (∀ x y : ℚ, conditional_cat_val (.scalar x) (.scalar y)
        = some (.scalar (x + y)))
    ∧ (∀ a : ℚ, conditional_cat_val (.scalar a) (.scalar a)
        = some (.scalar (2 * a)))
    ∧ (∀ a : ℚ, a ≠ 0 →
        conditional_cat_val (.scalar a) (.scalar a) ≠ some (.scalar a))
    ∧ (∀ u v : List ℚ, conditional_cat_val (.vlist u) (.vlist v)
        = some (.vlist (u ++ v)))
    ∧ (∀ t1 t2 : Tensor, conditional_cat_val (.tensor t1) (.tensor t2)
        = some (.tensor (t1 ++ t2)))
    ∧ (∀ (i1 i2 r : List (String × InfoVal)) (k : String) (v w : InfoVal),
        mergeInfo i1 i2 = Except.ok r → dictLookup i1 k = some v →
        dictLookup i2 k = some w →
        dictLookup r k = conditional_cat_val v w) := by
  refine ⟨fun x y => rfl, fun a => ?_, fun a ha => ?_, fun u v => rfl,
    fun t1 t2 => rfl, mergeInfo_lookup⟩
  · rw [two_mul]
    rfl
  · intro hcontra
    have h2 : InfoVal.scalar (a + a) = InfoVal.scalar a :=
      Option.some_inj.mp hcontra
    have h3 : a + a = a := by injection h2
    have h4 : a = 0 := by linarith
    exact ha h4

def c10i1 : List (String × InfoVal) := [("num_actions", InfoVal.scalar 7)]

def c10i2 : List (String × InfoVal) := [("num_actions", InfoVal.scalar 7)]

def c10r : List (String × InfoVal) := [("num_actions", InfoVal.scalar (7 + 7))]

/-- Witness for C10: a shared scalar `num_actions` of 7 merges to 14. -/
theorem C10_info_plus_combination_witness :
    (mergeInfo c10i1 c10i2 = Except.ok c10r)
    ∧ (dictLookup c10i1 "num_actions" = some (InfoVal.scalar 7))
    ∧ (dictLookup c10i2 "num_actions" = some (InfoVal.scalar 7))
    ∧ dictLookup c10r "num_actions"
      = conditional_cat_val (InfoVal.scalar 7) (InfoVal.scalar 7) :=
  ⟨rfl, rfl, rfl,
    C10_info_plus_combination.2.2.2.2.2 c10i1 c10i2 c10r "num_actions"
      (InfoVal.scalar 7) (InfoVal.scalar 7) rfl rfl rfl⟩

def c8e1 : Experience :=
  { sequences := none, action_log_probs := none, values := some [[2]],
    returns := none, advantages := none, attention_mask := none,
    action_mask := none, info := [], kl := none, ref_log_probs := none,
    visual_inputs := [] }

def c8e2 : Experience :=
  { sequences := none, action_log_probs := none, values := none,
    returns := none, advantages := none, attention_mask := none,
    action_mask := none, info := [], kl := none, ref_log_probs := none,
    visual_inputs := [] }

def c8m : Experience :=
  { sequences := none, action_log_probs := none, values := none,
    returns := none, advantages := none, attention_mask := none,
    action_mask := none, info := [], kl := none, ref_log_probs := none,
    visual_inputs := [] }

/-- Counterexample to C8: a tensor field present in exactly one operand
    (`values` here) is silently resolved to absent by the merge — the merge
    succeeds and returns `None` for that field instead of raising a fatal
    configuration error. -/
theorem C8_counterexample :
    c8e1.values ≠ none
    ∧ c8e2.values = none
    ∧ Experience.add c8e1 c8e2 = Except.ok c8m
    ∧ c8m.values = none :=
  ⟨by simp [c8e1], rfl, rfl, rfl⟩

/-- C8 as amended: a field absent in both operands merges to absent; a
    tensor field present in exactly one operand is silently resolved to
    absent (`conditional_cat` returns `None`, no error); for the `info`
    mapping, a key present only in the left operand raises a fatal
    `KeyError` (`other.info[k]`), while a key present only in the right
    operand is silently dropped because only the left operand's keys are
    iterated. -/
theorem C8_absence_mismatch_amended (a b : Option Tensor) (k : String)
    (v : InfoVal) (rest i2 : List (String × InfoVal))
    (hk : dictLookup i2 k = none) :
    conditional_cat_tensor none none = none
    ∧ conditional_cat_tensor a none = none
    ∧ conditional_cat_tensor none b = none
    ∧ mergeInfo ((k, v) :: rest) i2 = Except.error MergeErr.keyError := by
  refine ⟨rfl, ?_, ?_, ?_⟩
  · cases a <;> rfl
  · cases b <;> rfl
  · unfold mergeInfo
    simp only [hk]

/-- Witness for the amended C8 at concrete inputs. -/
theorem C8_absence_mismatch_amended_witness :
    (dictLookup ([] : List (String × InfoVal)) "reward" = none)
    ∧ conditional_cat_tensor (some [[1]]) none = none
    ∧ mergeInfo [("reward", InfoVal.scalar 1)] []
      = Except.error MergeErr.keyError :=
  ⟨rfl,
    (C8_absence_mismatch_amended (some [[1]]) none "reward"
      (InfoVal.scalar 1) [] [] rfl).2.1,
    (C8_absence_mismatch_amended (some [[1]]) none "reward"
      (InfoVal.scalar 1) [] [] rfl).2.2.2⟩

def c5gen : List ℕ → List ℕ := fun l => l

/-- Counterexample to C5: with `num_actors = 3`, registering rank 0 twice
    in the same undispatched round does NOT fail — the second registration
    returns successfully and silently overwrites the pending payload `[10]`
    with `[11]` (and bumps the counter), instead of raising a
    `DuplicateRegistration` error. -/
theorem C5_counterexample :
    add_requests c5gen ⟨3, 0, [], none⟩ 0 [10]
      = Except.ok (⟨3, 1, [(0, [10])], none⟩, [])
    ∧ add_requests c5gen ⟨3, 1, [(0, [10])], none⟩ 0 [11]
      = Except.ok (⟨3, 2, [(0, [11])], none⟩, []) :=
  ⟨rfl, rfl⟩

/-- C5 as amended: a registration below the dispatch threshold always
    succeeds, a duplicate silently replacing the pending payload
    (`dictInsert` overwrites in place); the violation only surfaces when
    the counter reaches `N` with fewer than `N` pending entries, as the
    fatal `assert len(self.requests) == self.num_actors`; `collect` before
    any dispatch is a fatal `AttributeError` and `collect` for a producer
    with no pending slice is a fatal `KeyError`. -/
theorem C5_protocol_violations_amended (gen : List ℕ → List ℕ)
    (s : AggState) (rank : ℕ) (p : List ℕ) :
    (s.actor_counter + 1 ≠ s.num_actors →
      add_requests gen s rank p
        = Except.ok
            ({ s with
                actor_counter := s.actor_counter + 1
                requests := dictInsert s.requests rank p }, []))
    ∧ (∀ (d : List (ℕ × List ℕ)) (k : ℕ) (v : List ℕ),
        dictLookup (dictInsert d k v) k = some v)
    ∧ (s.actor_counter + 1 = s.num_actors →
        (dictInsert s.requests rank p).length ≠ s.num_actors →
        add_requests gen s rank p = Except.error AggError.assertionError)
    ∧ (s.responses = none →
        get_responses s rank = Except.error AggError.attributeError)
    ∧ (∀ resp, s.responses = some resp → dictLookup resp rank = none →
        get_responses s rank = Except.error AggError.keyError) := by
  refine ⟨?_, ?_, ?_, ?_, ?_⟩
  · intro h
    simp [add_requests, h]
  · intro d k v
    induction d with
    | nil => simp [dictInsert, dictLookup]
    | cons q rest ih =>
      obtain ⟨k1, v1⟩ := q
      by_cases hk : k1 = k
      · subst hk
        simp [dictInsert, dictLookup]
      · simp [dictInsert, dictLookup, hk, ih]
  · intro h1 h2
    simp [add_requests, h1, h2]
  · intro h
    unfold get_responses
    simp only [h]
  · intro resp h1 h2
    unfold get_responses
    simp only [h1, dictPop_of_dictLookup_none resp rank h2]

def c5s : AggState := ⟨2, 1, [(0, [5])], none⟩

/-- Witness for the amended C5 at concrete inputs. -/
theorem C5_protocol_violations_amended_witness :
    (c5s.actor_counter + 1 = c5s.num_actors)
    ∧ ((dictInsert c5s.requests 0 [6]).length ≠ c5s.num_actors)
    ∧ (add_requests c5gen c5s 0 [6] = Except.error AggError.assertionError)
    ∧ (c5s.responses = none)
    ∧ (get_responses c5s 0 = Except.error AggError.attributeError) :=
  ⟨rfl, by decide,
    (C5_protocol_violations_amended c5gen c5s 0 [6]).2.2.1 rfl (by decide),
    rfl,
    (C5_protocol_violations_amended c5gen c5s 0 [6]).2.2.2.1 rfl⟩

lemma get_responses_ok (s : AggState) (resp : List (ℕ × List ℕ)) (r2 : ℕ)
    (v : List ℕ) (rest : List (ℕ × List ℕ)) (hs : s.responses = some resp)
    (hpop : dictPop resp r2 = some (v, rest)) :
    get_responses s r2 = Except.ok (v, { s with responses := some rest }) := by
  unfold get_responses
  simp only [hs, hpop]

/-- C4 as amended: when the registration counter reaches `num_actors` (with
    all pending entries distinct, so the length assertion passes) and the
    combined payload is non-empty, exactly one generation call is issued
    with the pending payloads concatenated in REGISTRATION (dict-insertion)
    order — not producer-id order — and the combined result is sliced back
    so that the per-producer slices, keyed and ordered as registered,
    concatenate to the full combined result, `collect` returning each
    producer its own slice. -/
theorem C4_dispatch_amended (gen : List ℕ → List ℕ) (s : AggState)
    (rank : ℕ) (p : List ℕ)
    (hgen : ∀ l, (gen l).length = l.length)
    (hc : s.actor_counter + 1 = s.num_actors)
    (hlen : (dictInsert s.requests rank p).length = s.num_actors)
    (hne : 0 < ((dictInsert s.requests rank p).map Prod.snd).flatten.length) :
    add_requests gen s rank p = Except.ok
      ({ s with
          actor_counter := 0
          requests := []
          responses := some (sliceBack
            ((dictInsert s.requests rank p).map (fun q => (q.1, q.2.length)))
            (gen (((dictInsert s.requests rank p).map Prod.snd).flatten))) },
        [((dictInsert s.requests rank p).map Prod.snd).flatten])
    ∧ (sliceBack
        ((dictInsert s.requests rank p).map (fun q => (q.1, q.2.length)))
        (gen (((dictInsert s.requests rank p).map Prod.snd).flatten))).map
          Prod.fst
      = (dictInsert s.requests rank p).map Prod.fst
    ∧ ((sliceBack
        ((dictInsert s.requests rank p).map (fun q => (q.1, q.2.length)))
        (gen (((dictInsert s.requests rank p).map Prod.snd).flatten))).map
          Prod.snd).flatten
      = gen (((dictInsert s.requests rank p).map Prod.snd).flatten)
    ∧ ∀ (r2 : ℕ) (v : List ℕ),
        dictLookup (sliceBack
          ((dictInsert s.requests rank p).map (fun q => (q.1, q.2.length)))
          (gen (((dictInsert s.requests rank p).map Prod.snd).flatten))) r2
          = some v →
        ∃ s2, get_responses
          ({ s with
              actor_counter := 0
              requests := []
              responses := some (sliceBack
                ((dictInsert s.requests rank p).map
                  (fun q => (q.1, q.2.length)))
                (gen (((dictInsert s.requests rank p).map
                  Prod.snd).flatten))) }) r2
          = Except.ok (v, s2) := by
  have hne2 : 0 < (List.map (List.length ∘ Prod.snd)
      (dictInsert s.requests rank p)).sum := by
    rw [List.length_flatten, List.map_map] at hne
    exact hne
  refine ⟨?_, ?_, ?_, ?_⟩
  · simp [add_requests, hc, hlen, hne]
    exact ⟨by rw [if_pos hne2], by omega⟩
  · rw [sliceBack_fst, List.map_map]
    rfl
  · apply sliceBack_flatten
    rw [hgen, List.length_flatten, List.map_map, List.map_map]
    rfl
  · intro r2 v hv
    obtain ⟨rest, hpop⟩ := dictPop_of_dictLookup_some _ r2 v hv
    exact ⟨_, get_responses_ok _ _ r2 v rest rfl hpop⟩

def c4gen : List ℕ → List ℕ := fun l => l

/-- Two registration calls of one aggregator round: rank 1 registers before
    rank 0 (`num_actors = 2`), then the round dispatches. -/
def c4run : Except AggError (AggState × List (List ℕ)) :=
  match add_requests c4gen ⟨2, 0, [], none⟩ 1 [10] with
  | .error e => .error e
  | .ok (s1, g1) =>
    match add_requests c4gen s1 0 [20] with
    | .error e => .error e
    | .ok (s2, g2) => .ok (s2, g1 ++ g2)

/-- Counterexample to C4 as stated: when rank 1 registers before rank 0,
    the combined payload (and full result, with `gen` the identity) is
    `[10, 20]` — registration order — while the per-producer slices
    concatenated in increasing producer-id order give `[20, 10]`, which is
    NOT the full combined result. -/
theorem C4_counterexample :
    c4run = Except.ok (⟨2, 0, [], some [(1, [10]), (0, [20])]⟩, [[10, 20]])
    ∧ ((dictLookup [(1, [10]), (0, [20])] 0).getD []
        ++ (dictLookup [(1, [10]), (0, [20])] 1).getD [])
      ≠ ([(1, [10]), (0, [20])].map Prod.snd).flatten := by
  constructor
  · rfl
  · decide

def c4s : AggState := ⟨2, 1, [(1, [10])], none⟩

/-- Witness for the amended C4: rank 0 completes the round started by
    rank 1; slices stay in registration order and flatten back to the full
    result. -/
theorem C4_dispatch_amended_witness :
    (∀ l, (c4gen l).length = l.length)
    ∧ (c4s.actor_counter + 1 = c4s.num_actors)
    ∧ ((dictInsert c4s.requests 0 [20]).length = c4s.num_actors)
    ∧ (0 < ((dictInsert c4s.requests 0 [20]).map Prod.snd).flatten.length)
    ∧ (sliceBack
        ((dictInsert c4s.requests 0 [20]).map (fun q => (q.1, q.2.length)))
        (c4gen (((dictInsert c4s.requests 0 [20]).map
          Prod.snd).flatten))).map Prod.fst
      = (dictInsert c4s.requests 0 [20]).map Prod.fst
    ∧ ((sliceBack
        ((dictInsert c4s.requests 0 [20]).map (fun q => (q.1, q.2.length)))
        (c4gen (((dictInsert c4s.requests 0 [20]).map
          Prod.snd).flatten))).map Prod.snd).flatten
      = c4gen (((dictInsert c4s.requests 0 [20]).map Prod.snd).flatten) :=
  ⟨fun l => rfl, rfl, by decide, by decide,
    (C4_dispatch_amended c4gen c4s 0 [20] (fun l => rfl) rfl (by decide)
      (by decide)).2.1,
    (C4_dispatch_amended c4gen c4s 0 [20] (fun l => rfl) rfl (by decide)
      (by decide)).2.2.1⟩

/-- Counterexample to C6 as stated: with an unknown estimator name the
    rollout's trace begins with the generation and scoring remote work and
    only then raises the configuration error — the error is not raised
    before remote work is issued. -/
theorem C6_counterexample :
    make_experience_list_trace "an_unsupported_estimator" 4
      = [Event.generate, Event.score, Event.configError]
    ∧ (make_experience_list_trace "an_unsupported_estimator" 4).head?
      ≠ some Event.configError := by
  constructor
  · rfl
  · decide

/-- C6 as amended: an unknown advantage-estimator name, or
    `n_samples_per_prompt ≤ 1` with the `group_norm` / `reinforce++`
    estimators, is fatal — the rollout ends at the configuration error and
    no advantage computation happens — but the error is raised only AFTER
    the generation and scoring remote work of the rollout, not before
    (the checks sit inside `make_experience_list`'s per-experience loop;
    rloo itself has no such check at all and divides by
    `n_samples_per_prompt - 1` unguarded). -/
theorem C6_config_error_after_remote_work (estimator : String) (n : ℕ)
    (h : estimator ∉ knownEstimators
      ∨ ((estimator = "group_norm" ∨ estimator = "reinforce++")
          ∧ ¬ 1 < n)) :
    make_experience_list_trace estimator n
      = [Event.generate, Event.score, Event.configError] := by
  unfold make_experience_list_trace
  rcases h with h | h
  · by_cases h1 : (estimator = "group_norm" ∨ estimator = "reinforce++")
        ∧ ¬ 1 < n
    · rw [if_pos h1]
      rfl
    · rw [if_neg h1, if_neg h]
      rfl
  · rw [if_pos h]
    rfl

/-- Witness for the amended C6 at concrete configurations. -/
theorem C6_config_error_after_remote_work_witness :
    ("not_an_estimator" ∉ knownEstimators
      ∨ (("not_an_estimator" = "group_norm"
          ∨ "not_an_estimator" = "reinforce++") ∧ ¬ 1 < 2))
    ∧ make_experience_list_trace "not_an_estimator" 2
      = [Event.generate, Event.score, Event.configError]
    ∧ ("group_norm" ∉ knownEstimators
      ∨ (("group_norm" = "group_norm" ∨ "group_norm" = "reinforce++")
          ∧ ¬ 1 < 1))
    ∧ make_experience_list_trace "group_norm" 1
      = [Event.generate, Event.score, Event.configError] :=
  ⟨by decide, C6_config_error_after_remote_work "not_an_estimator" 2
      (by decide),
    by decide, C6_config_error_after_remote_work "group_norm" 1 (by decide)⟩
